import Mathlib

/-!
Verification of the trasposa audio pipeline (src/trasposa.py).

Signals are modelled as lists of real samples together with a natural-number
sample rate.  Python float arithmetic is modelled over the reals.  The code
under src/ is a thin orchestrator: the functions embedded from the source are
normalize_audio and trasposa (its pure processing core); change_speed and
change_pitch delegate to a third-party phase-vocoder library whose body is not
in the repository, so those engines are modelled from the spec at their
contract level (see the doc comments marked Modelled from the spec).
-/

/-- Errors the processing core can raise (Python exceptions, modelled as
Except values): invalidRate corresponds to the engine rejecting a
non-positive stretch rate, emptyReduction to the ValueError numpy raises
when np.max is applied to a zero-size array. -/
inductive TrasposaError where
  | invalidRate : TrasposaError
  | emptyReduction : TrasposaError
deriving DecidableEq

/-- Embedding of np.max(np.abs(y)): the maximum of the absolute values of
the samples.  np.max of a zero-size array raises ValueError (a reduction
with no identity), modelled as none. -/
noncomputable def npMaxAbs : List ℝ → Option ℝ
  | [] => none
  | a :: rest => some (rest.foldl (fun m s => max m |s|) |a|)

/-- Embedding of normalize_audio (src/trasposa.py lines 87-107):
peak = np.max(np.abs(y)); if peak == 0 return y; else
target = 10 ** (peak_db / 20); return y * (target / peak).
The Python default for peak_db is -1.0; call sites pass it explicitly here.
On an empty signal np.max raises, modelled as none. -/
noncomputable def normalize_audio (y : List ℝ) (peak_db : ℝ) : Option (List ℝ) :=
  match npMaxAbs y with
  | none => none
  | some peak =>
      if peak = 0 then some y
      else some (y.map (fun s => s * ((10:ℝ) ^ (peak_db / 20) / peak)))

/-- Modelled from the spec: the Phase Vocoder Stretch Engine invoked by
change_speed is the third-party call librosa.effects.time_stretch, whose body
is not under src/.  The spec fixes its contract: a ratio R ≤ 0 is invalid
input and is rejected before any processing; otherwise the output is a
resynthesis of the input on a new time axis whose length is len(y)/R up to
rounding (within one frame/hop), with empty in → empty out and silence in →
silence out.  We model the engine at that contract level as a nearest-sample
time-axis remapping of length ⌈len(y)/R⌉. -/
noncomputable def time_stretch (y : List ℝ) (rate : ℝ) :
    Except TrasposaError (List ℝ) :=
  if rate ≤ 0 then Except.error TrasposaError.invalidRate
  else Except.ok ((List.range ⌈(y.length : ℝ) / rate⌉₊).map
    (fun (j : ℕ) => y.getD ⌊(j : ℝ) * rate⌋₊ 0))

/-- Modelled from the spec: the Resample Stage (librosa's resampling, not
under src/): changes the sample-rate ratio by a factor F, output length ≈
len(y)/F, modelled as nearest-sample resampling. -/
noncomputable def resample (y : List ℝ) (F : ℝ) : List ℝ :=
  (List.range ⌈(y.length : ℝ) / F⌉₊).map
    (fun (j : ℕ) => y.getD ⌊(j : ℝ) * F⌋₊ 0)

/-- Modelled from the spec: the pitch-shift compound operation invoked by
change_pitch is librosa.effects.pitch_shift, not under src/.  Per the spec it
converts the semitone shift to a frequency ratio P = 2^(semitones/12), applies
the Stretch Engine with ratio 1/P, then the Resample Stage with factor P.
The sample rate parameter does not affect the in-memory model. -/
noncomputable def pitch_shift (y : List ℝ) (sr : ℕ) (n_steps : ℤ) :
    Except TrasposaError (List ℝ) :=
  match time_stretch y (1 / (2:ℝ) ^ ((n_steps : ℝ) / 12)) with
  | Except.error e => Except.error e
  | Except.ok z => Except.ok (resample z ((2:ℝ) ^ ((n_steps : ℝ) / 12)))

/-- Embedding of change_speed (src/trasposa.py lines 68-84): delegates to
librosa.effects.time_stretch. -/
noncomputable def change_speed (y : List ℝ) (rate : ℝ) :
    Except TrasposaError (List ℝ) :=
  time_stretch y rate

/-- Embedding of change_pitch (src/trasposa.py lines 47-65): delegates to
librosa.effects.pitch_shift. -/
noncomputable def change_pitch (y : List ℝ) (sr : ℕ) (semitones : ℤ) :
    Except TrasposaError (List ℝ) :=
  pitch_shift y sr semitones

/-- The normalization branch of trasposa: y = normalize_audio(y), with the
Python default target peak_db = -1.0.  The ValueError that np.max raises on a
zero-size array propagates as an error. -/
noncomputable def normalize_step (y : List ℝ) : Except TrasposaError (List ℝ) :=
  match normalize_audio y (-1) with
  | none => Except.error TrasposaError.emptyReduction
  | some z => Except.ok z

/-- Embedding of the processing core of trasposa (src/trasposa.py lines
188-204), after load_audio has produced (y, sr) and before save/play:
if speed != 1.0: y = change_speed(y, speed);
if semitones != 0: y = change_pitch(y, sr, semitones);
if normalize: y = normalize_audio(y);
return (y, sr).
A Python exception raised by any stage aborts the rest of the pipeline,
modelled by the Except error short-circuit. -/
noncomputable def trasposa (y : List ℝ) (sr : ℕ) (semitones : ℤ) (speed : ℝ)
    (normalize : Bool) : Except TrasposaError (List ℝ × ℕ) :=
  match (if speed ≠ 1 then change_speed y speed else Except.ok y) with
  | Except.error e => Except.error e
  | Except.ok y1 =>
    match (if semitones ≠ 0 then change_pitch y1 sr semitones else Except.ok y1) with
    | Except.error e => Except.error e
    | Except.ok y2 =>
      match (if normalize then normalize_step y2 else Except.ok y2) with
      | Except.error e => Except.error e
      | Except.ok y3 => Except.ok (y3, sr)

/-- Modelled from the spec: the hop size of the Stretch Parameters.  The
delegated engine's default hop is 512 samples (frame size 2048, hop =
frame/4); the spec states length laws "within one hop length". -/
def hop_length : ℕ := 512

/-- One transform of the Orchestrator's step sequence (spec section 4.4). -/
inductive PipelineStep where
  | stretch : PipelineStep
  | pitch : PipelineStep
deriving DecidableEq

/-- Modelled from the spec (section 4.4): two independent boolean conditions
(speed ≠ 1, semitones ≠ 0) drive up to two sequential transforms, the speed
stretch first, then the pitch-shift compound operation. -/
noncomputable def specSteps (semitones : ℤ) (speed : ℝ) : List PipelineStep :=
  (if speed ≠ 1 then [PipelineStep.stretch] else []) ++
    (if semitones ≠ 0 then [PipelineStep.pitch] else [])

/-- Interpretation of one Orchestrator step on a signal. -/
noncomputable def runStep (sr : ℕ) (semitones : ℤ) (speed : ℝ) (y : List ℝ) :
    PipelineStep → Except TrasposaError (List ℝ)
  | PipelineStep.stretch => change_speed y speed
  | PipelineStep.pitch => change_pitch y sr semitones

/-- Sequential interpretation of an Orchestrator step list, aborting on the
first error. -/
noncomputable def runSteps (sr : ℕ) (semitones : ℤ) (speed : ℝ) :
    List PipelineStep → List ℝ → Except TrasposaError (List ℝ)
  | [], y => Except.ok y
  | st :: rest, y =>
      match runStep sr semitones speed y st with
      | Except.error e => Except.error e
      | Except.ok y1 => runSteps sr semitones speed rest y1

theorem le_foldl_absmax (l : List ℝ) (b : ℝ) :
    b ≤ l.foldl (fun m s => max m |s|) b := by
  induction l generalizing b with
  | nil => exact le_refl b
  | cons a l ih => exact le_trans (le_max_left b |a|) (ih (max b |a|))

theorem foldl_absmax_map_mul (l : List ℝ) (b c : ℝ) (hc : 0 ≤ c) :
    (l.map (fun s => s * c)).foldl (fun m s => max m |s|) (b * c) =
      (l.foldl (fun m s => max m |s|) b) * c := by
  induction l generalizing b with
  | nil => rfl
  | cons a l ih =>
      simp only [List.map_cons, List.foldl_cons]
      rw [show max (b * c) |a * c| = (max b |a|) * c by
        rw [abs_mul, abs_of_nonneg hc, ← max_mul_of_nonneg _ _ hc]]
      exact ih (max b |a|)

theorem npMaxAbs_nonneg (y : List ℝ) (p : ℝ) (h : npMaxAbs y = some p) :
    0 ≤ p := by
  cases y with
  | nil => simp [npMaxAbs] at h
  | cons a l =>
      simp only [npMaxAbs, Option.some.injEq] at h
      exact le_trans (abs_nonneg a) (h ▸ le_foldl_absmax l |a|)

theorem npMaxAbs_map_mul (y : List ℝ) (c : ℝ) (hc : 0 ≤ c) :
    npMaxAbs (y.map (fun s => s * c)) = (npMaxAbs y).map (fun p => p * c) := by
  cases y with
  | nil => rfl
  | cons a l =>
      simp only [npMaxAbs, List.map_cons, Option.map_some']
      rw [show |a * c| = |a| * c by rw [abs_mul, abs_of_nonneg hc]]
      rw [foldl_absmax_map_mul l |a| c hc]

theorem normalize_audio_of_peak (y : List ℝ) (db p : ℝ)
    (h : npMaxAbs y = some p) :
    normalize_audio y db =
      if p = 0 then some y
      else some (y.map (fun s => s * ((10:ℝ) ^ (db / 20) / p))) := by
  unfold normalize_audio
  rw [h]

theorem normalize_audio_nil (db : ℝ) : normalize_audio [] db = none := rfl

theorem normalize_audio_length (y : List ℝ) (db : ℝ) (z : List ℝ)
    (h : normalize_audio y db = some z) : z.length = y.length := by
  cases hy : npMaxAbs y with
  | none =>
      unfold normalize_audio at h
      rw [hy] at h
      exact absurd h (by simp)
  | some p =>
      rw [normalize_audio_of_peak y db p hy] at h
      by_cases h0 : p = 0
      · rw [if_pos h0, Option.some.injEq] at h
        rw [← h]
      · rw [if_neg h0, Option.some.injEq] at h
        rw [← h, List.length_map]

/-- Claim C1: normalize_audio computes the peak absolute sample value; on a
silent signal (peak = 0) it returns the input unchanged; otherwise it
multiplies every sample by 10^(peak_db/20)/peak, and the peak absolute value
of the result is exactly 10^(peak_db/20) (exact over the reals, which models
"up to floating-point rounding"). -/
theorem normalize_audio_contract (y : List ℝ) (db p : ℝ)
    (hp : npMaxAbs y = some p) :
    (p = 0 → normalize_audio y db = some y) ∧
    (p ≠ 0 →
      normalize_audio y db =
        some (y.map (fun s => s * ((10:ℝ) ^ (db / 20) / p))) ∧
      npMaxAbs (y.map (fun s => s * ((10:ℝ) ^ (db / 20) / p))) =
        some ((10:ℝ) ^ (db / 20))) := by
  constructor
  · intro h0
    rw [normalize_audio_of_peak y db p hp, if_pos h0]
  · intro hne
    have hppos : 0 < p := lt_of_le_of_ne (npMaxAbs_nonneg y p hp) (Ne.symm hne)
    have htpos : 0 < (10:ℝ) ^ (db / 20) :=
      Real.rpow_pos_of_pos (by norm_num) _
    refine ⟨by rw [normalize_audio_of_peak y db p hp, if_neg hne], ?_⟩
    rw [npMaxAbs_map_mul y _ (le_of_lt (div_pos htpos hppos)), hp,
      Option.map_some']
    rw [mul_comm, div_mul_cancel₀ _ (ne_of_gt hppos)]

/-- Witness for C1 at the concrete signal [1] with target 0 dBFS. -/
theorem normalize_audio_contract_witness :
    npMaxAbs [(1:ℝ)] = some 1 ∧
    (normalize_audio [(1:ℝ)] 0 =
        some ([(1:ℝ)].map (fun s => s * ((10:ℝ) ^ ((0:ℝ) / 20) / 1))) ∧
      npMaxAbs ([(1:ℝ)].map (fun s => s * ((10:ℝ) ^ ((0:ℝ) / 20) / 1))) =
        some ((10:ℝ) ^ ((0:ℝ) / 20))) := by
  have h1 : npMaxAbs [(1:ℝ)] = some 1 := by
    simp [npMaxAbs]
  exact ⟨h1, (normalize_audio_contract [(1:ℝ)] 0 1 h1).2 one_ne_zero⟩

/-- Claim C5: the Normalizer is idempotent: for every signal and every target
peak level, normalizing twice with the same target equals normalizing once
(exactly, over the reals; a Python exception on the first application
propagates, so the composed computation is modelled with Option.bind). -/
theorem normalize_audio_idempotent (y : List ℝ) (db : ℝ) :
    (normalize_audio y db).bind (fun z => normalize_audio z db) =
      normalize_audio y db := by
  cases hy : npMaxAbs y with
  | none =>
      have h : normalize_audio y db = none := by
        unfold normalize_audio; rw [hy]
      rw [h]
      rfl
  | some p =>
      by_cases h0 : p = 0
      · have h1 : normalize_audio y db = some y := by
          rw [normalize_audio_of_peak y db p hy, if_pos h0]
        rw [h1]
        exact h1
      · have hppos : 0 < p :=
          lt_of_le_of_ne (npMaxAbs_nonneg y p hy) (Ne.symm h0)
        have htpos : 0 < (10:ℝ) ^ (db / 20) :=
          Real.rpow_pos_of_pos (by norm_num) _
        have h1 : normalize_audio y db =
            some (y.map (fun s => s * ((10:ℝ) ^ (db / 20) / p))) := by
          rw [normalize_audio_of_peak y db p hy, if_neg h0]
        have hz : npMaxAbs (y.map (fun s => s * ((10:ℝ) ^ (db / 20) / p))) =
            some ((10:ℝ) ^ (db / 20)) := by
          rw [npMaxAbs_map_mul y _ (le_of_lt (div_pos htpos hppos)), hy,
            Option.map_some']
          rw [mul_comm, div_mul_cancel₀ _ (ne_of_gt hppos)]
        have h2 : normalize_audio
            (y.map (fun s => s * ((10:ℝ) ^ (db / 20) / p))) db =
            some (y.map (fun s => s * ((10:ℝ) ^ (db / 20) / p))) := by
          rw [normalize_audio_of_peak _ db _ hz, if_neg (ne_of_gt htpos)]
          rw [div_self (ne_of_gt htpos)]
          simp
        rw [h1]
        exact h2

/-- Claim C7: on a non-silent signal the Normalizer is a single linear scalar
gain: there is one scalar c with every output sample equal to c times the
corresponding input sample. -/
theorem normalize_audio_linear_gain (y : List ℝ) (db p : ℝ)
    (hp : npMaxAbs y = some p) (hne : p ≠ 0) :
    ∃ c : ℝ, normalize_audio y db = some (y.map (fun s => s * c)) := by
  refine ⟨(10:ℝ) ^ (db / 20) / p, ?_⟩
  rw [normalize_audio_of_peak y db p hp, if_neg hne]

/-- Witness for C7 at the concrete signal [1, -2] with target 0 dBFS. -/
theorem normalize_audio_linear_gain_witness :
    npMaxAbs [(1:ℝ), -2] = some 2 ∧ (2:ℝ) ≠ 0 ∧
    ∃ c : ℝ, normalize_audio [(1:ℝ), -2] 0 =
      some ([(1:ℝ), -2].map (fun s => s * c)) := by
  have h1 : npMaxAbs [(1:ℝ), -2] = some 2 := by
    simp [npMaxAbs]
  exact ⟨h1, by norm_num,
    normalize_audio_linear_gain [(1:ℝ), -2] 0 2 h1 (by norm_num)⟩

/-- Claim C4: processing with speed 1.0, semitone shift 0 and normalization
disabled returns the input unchanged: all three conditional stages are
skipped, so the identity holds exactly (stronger than the claimed
floating-point tolerance). -/
theorem process_identity (y : List ℝ) (sr : ℕ) :
    trasposa y sr 0 1 false = Except.ok (y, sr) := by
  simp [trasposa]

/-- Claim C2: a speed ratio ≤ 0 is rejected before any processing: the
pipeline stops at the stretch stage with the invalid-rate error and produces
no partial output (the error value carries no signal). -/
theorem invalid_speed_rejected (y : List ℝ) (sr : ℕ) (s : ℤ) (sp : ℝ)
    (n : Bool) (hsp : sp ≤ 0) :
    trasposa y sr s sp n = Except.error TrasposaError.invalidRate := by
  have h1 : sp ≠ 1 := by intro h; rw [h] at hsp; norm_num at hsp
  unfold trasposa
  rw [if_pos h1]
  unfold change_speed time_stretch
  rw [if_pos hsp]

/-- Witness for C2 at speed 0. -/
theorem invalid_speed_rejected_witness :
    (0:ℝ) ≤ 0 ∧ trasposa [(1:ℝ)] 44100 2 0 true =
      Except.error TrasposaError.invalidRate :=
  ⟨le_refl 0, invalid_speed_rejected [(1:ℝ)] 44100 2 0 true (le_refl 0)⟩

/-- Claim C9: whenever the pipeline returns a processed signal, its sample
rate is the input sample rate: no stage changes it. -/
theorem sample_rate_preserved (y : List ℝ) (sr : ℕ) (s : ℤ) (sp : ℝ)
    (n : Bool) (out : List ℝ × ℕ)
    (h : trasposa y sr s sp n = Except.ok out) : out.2 = sr := by
  unfold trasposa at h
  split at h
  · exact Except.noConfusion h
  · split at h
    · exact Except.noConfusion h
    · split at h
      · exact Except.noConfusion h
      · injection h with h1
        rw [← h1]

/-- Witness for C9 at a concrete one-sample signal. -/
theorem sample_rate_preserved_witness :
    trasposa [(1:ℝ)] 5 0 1 false = Except.ok ([(1:ℝ)], 5) ∧
      (([(1:ℝ)], 5) : List ℝ × ℕ).2 = 5 := by
  have h : trasposa [(1:ℝ)] 5 0 1 false = Except.ok ([(1:ℝ)], 5) := by
    simp [trasposa]
  exact ⟨h, sample_rate_preserved [(1:ℝ)] 5 0 1 false ([(1:ℝ)], 5) h⟩

/-- Claim C10: with normalization enabled the pipeline result is exactly the
normalization of the non-normalized result at the fixed default target of
-1.0 dBFS: trasposa exposes no target-peak parameter, so normalize_audio is
always called with peak_db = -1.0. -/
theorem normalize_target_default (y : List ℝ) (sr : ℕ) (s : ℤ) (sp : ℝ) :
    trasposa y sr s sp true =
      match trasposa y sr s sp false with
      | Except.error e => Except.error e
      | Except.ok p =>
          match normalize_audio p.1 (-1) with
          | none => Except.error TrasposaError.emptyReduction
          | some z => Except.ok (z, p.2) := by
  by_cases hsp1 : sp = 1
  · by_cases hs0 : s = 0
    · cases h3 : normalize_audio y (-1) with
      | none => simp [trasposa, normalize_step, hsp1, hs0, h3]
      | some z => simp [trasposa, normalize_step, hsp1, hs0, h3]
    · cases hcp : change_pitch y sr s with
      | error e => simp [trasposa, normalize_step, hsp1, hs0, hcp]
      | ok y2 =>
          cases h3 : normalize_audio y2 (-1) with
          | none => simp [trasposa, normalize_step, hsp1, hs0, hcp, h3]
          | some z => simp [trasposa, normalize_step, hsp1, hs0, hcp, h3]
  · cases hcs : change_speed y sp with
    | error e => simp [trasposa, normalize_step, hsp1, hcs]
    | ok y1 =>
        by_cases hs0 : s = 0
        · cases h3 : normalize_audio y1 (-1) with
          | none => simp [trasposa, normalize_step, hsp1, hs0, hcs, h3]
          | some z => simp [trasposa, normalize_step, hsp1, hs0, hcs, h3]
        · cases hcp : change_pitch y1 sr s with
          | error e => simp [trasposa, normalize_step, hsp1, hs0, hcs, hcp]
          | ok y2 =>
              cases h3 : normalize_audio y2 (-1) with
              | none =>
                  simp [trasposa, normalize_step, hsp1, hs0, hcs, hcp, h3]
              | some z =>
                  simp [trasposa, normalize_step, hsp1, hs0, hcs, hcp, h3]

/-- Claim C6, failing-input evaluation: on the zero-length signal with
normalization enabled (speed 1, shift 0) the pipeline raises the np.max
zero-size-reduction error instead of returning the empty signal. -/
theorem empty_signal_normalization_raises :
    trasposa [] 44100 0 1 true = Except.error TrasposaError.emptyReduction := by
  simp [trasposa, normalize_step, normalize_audio_nil]

/-- Claim C3: the Orchestrator applies the stretch step iff speed ≠ 1 and the
pitch step iff the semitone shift is non-zero, in that order: the processing
core equals the interpretation of the spec's step sequence (stretch first,
then pitch), followed by the optional normalization. -/
theorem orchestrator_spec_sequence (y : List ℝ) (sr : ℕ) (s : ℤ) (sp : ℝ)
    (n : Bool) :
    trasposa y sr s sp n =
      match runSteps sr s sp (specSteps s sp) y with
      | Except.error e => Except.error e
      | Except.ok y2 =>
          match (if n then normalize_step y2 else Except.ok y2) with
          | Except.error e => Except.error e
          | Except.ok y3 => Except.ok (y3, sr) := by
  by_cases hsp1 : sp = 1
  · by_cases hs0 : s = 0
    · simp [trasposa, specSteps, runSteps, hsp1, hs0]
    · cases hcp : change_pitch y sr s with
      | error e => simp [trasposa, specSteps, runSteps, runStep, hsp1, hs0, hcp]
      | ok y2 => simp [trasposa, specSteps, runSteps, runStep, hsp1, hs0, hcp]
  · cases hcs : change_speed y sp with
    | error e => simp [trasposa, specSteps, runSteps, runStep, hsp1, hcs]
    | ok y1 =>
        by_cases hs0 : s = 0
        · simp [trasposa, specSteps, runSteps, runStep, hsp1, hs0, hcs]
        · cases hcp : change_pitch y1 sr s with
          | error e =>
              simp [trasposa, specSteps, runSteps, runStep, hsp1, hs0, hcs, hcp]
          | ok y2 =>
              simp [trasposa, specSteps, runSteps, runStep, hsp1, hs0, hcs, hcp]

theorem time_stretch_pos (y : List ℝ) (rate : ℝ) (hr : 0 < rate) :
    ∃ z : List ℝ, time_stretch y rate = Except.ok z ∧
      z.length = ⌈(y.length : ℝ) / rate⌉₊ := by
  refine ⟨(List.range ⌈(y.length : ℝ) / rate⌉₊).map
    (fun (j : ℕ) => y.getD ⌊(j : ℝ) * rate⌋₊ 0), ?_, by simp⟩
  unfold time_stretch
  rw [if_neg (not_le.mpr hr)]

theorem normalize_step_length (y z : List ℝ)
    (h : normalize_step y = Except.ok z) : z.length = y.length := by
  unfold normalize_step at h
  cases hna : normalize_audio y (-1) with
  | none =>
      simp only [hna] at h
      exact Except.noConfusion h
  | some w =>
      simp only [hna, Except.ok.injEq] at h
      rw [← h]
      exact normalize_audio_length y (-1) w hna

theorem ceil_div_close (len : ℕ) (sp : ℝ) (hsp : 0 < sp) :
    |((⌈(len : ℝ) / sp⌉₊ : ℕ) : ℝ) - (len : ℝ) / sp| ≤ (hop_length : ℝ) := by
  have hx : 0 ≤ (len : ℝ) / sp := div_nonneg (Nat.cast_nonneg len) hsp.le
  have h1 : (len : ℝ) / sp ≤ ((⌈(len : ℝ) / sp⌉₊ : ℕ) : ℝ) := Nat.le_ceil _
  have h2 : ((⌈(len : ℝ) / sp⌉₊ : ℕ) : ℝ) < (len : ℝ) / sp + 1 :=
    Nat.ceil_lt_add_one hx
  rw [abs_of_nonneg (by linarith)]
  have h3 : (1:ℝ) ≤ (hop_length : ℝ) := by norm_num [hop_length]
  linarith

/-- Claim C8: duration law: whenever processing with speed ratio S > 0 (and
semitone shift 0) returns a signal, its length is within one hop length of
the input length divided by S. -/
theorem duration_law (y : List ℝ) (sr : ℕ) (sp : ℝ) (n : Bool)
    (out : List ℝ × ℕ) (hsp : 0 < sp)
    (h : trasposa y sr 0 sp n = Except.ok out) :
    |(out.1.length : ℝ) - (y.length : ℝ) / sp| ≤ (hop_length : ℝ) := by
  by_cases hsp1 : sp = 1
  · have hlen : out.1.length = y.length := by
      cases hn : n with
      | false =>
          rw [hn] at h
          simp [trasposa, hsp1] at h
          rw [← h]
      | true =>
          rw [hn] at h
          cases hns : normalize_step y with
          | error e => simp [trasposa, hsp1, hns] at h
          | ok w =>
              simp [trasposa, hsp1, hns] at h
              rw [← h]
              exact normalize_step_length y w hns
    rw [hlen, hsp1, div_one, sub_self, abs_zero]
    exact Nat.cast_nonneg hop_length
  · obtain ⟨y1, hcs, hlen1⟩ := time_stretch_pos y sp hsp
    have hlen : out.1.length = ⌈(y.length : ℝ) / sp⌉₊ := by
      cases hn : n with
      | false =>
          rw [hn] at h
          simp [trasposa, change_speed, hsp1, hcs] at h
          rw [← h]
          exact hlen1
      | true =>
          rw [hn] at h
          cases hns : normalize_step y1 with
          | error e =>
              simp [trasposa, change_speed, hsp1, hcs, hns] at h
          | ok w =>
              simp [trasposa, change_speed, hsp1, hcs, hns] at h
              rw [← h]
              exact (normalize_step_length y1 w hns).trans hlen1
    rw [hlen]
    exact ceil_div_close y.length sp hsp

/-- Witness for C8 at a concrete one-sample signal with speed 1. -/
theorem duration_law_witness :
    (0:ℝ) < 1 ∧
    trasposa [(1:ℝ)] 44100 0 1 false = Except.ok ([(1:ℝ)], 44100) ∧
    |((([(1:ℝ)], (44100:ℕ)).1.length : ℝ)) - ([(1:ℝ)].length : ℝ) / 1| ≤
      (hop_length : ℝ) := by
  have h : trasposa [(1:ℝ)] 44100 0 1 false = Except.ok ([(1:ℝ)], 44100) := by
    simp [trasposa]
  exact ⟨by norm_num, h,
    duration_law [(1:ℝ)] 44100 1 false ([(1:ℝ)], 44100) (by norm_num) h⟩
